import Mathlib

/-!
# Verification of the holiday / special-date resolution engine

Shallow embedding of the date logic of the dashboard repository:

* `CalendarWidget` (the variant taking a `holidays` prop): built-in rule
  catalogs `US_HOLIDAYS` / `CHINESE_HOLIDAYS` and the per-day matcher
  `getHolidaysForDate`;
* `HolidayCountdown`: the countdown search `calculateNextHoliday`, the
  persisted-rule reconstruction of `getDate`, and the disabled-rule filter;
* `HolidaySettingsModal`: `isValidLunarDate`, `getNextValidLunarDate` and the
  `getDate` closure built by `handleAddNewHoliday`;
* `Clock`: `calculateNextSpecialDate` for birthdays / anniversaries.

Modelling conventions:

* JavaScript `Date` values are modelled at calendar-day granularity by
  `JsDate` (local year / 1-based month / day-of-month, the fields observed
  through `getFullYear()` / `getMonth() + 1` / `getDate()`).  The reference
  instant ("now") is modelled as the calendar day it falls on; time-of-day
  below one day is not modelled.  At this granularity `toZonedTime(d, tz)`
  followed by `setHours(0,0,0,0)` — converting into the single fixed zone
  `America/Los_Angeles` (the runtime's zone in the intended deployment) and
  zeroing the time-of-day — preserves the calendar day, so it is the
  identity `toPacificMidnight`.
* `date-fns`' `differenceInDays` counts whole 24-hour periods; on two
  day-granularity (midnight) dates this is exactly the difference of
  day numbers, which is how `jsDifferenceInDays` computes it.
* JavaScript `%` is the truncating remainder and `Math.floor (a / b)` is
  floor division.  All divisors in the translated code are positive
  literals, for which `Int.ediv` coincides with floor division at every
  dividend; every translated `%` is applied either to a non-negative
  dividend or only tested against `0`, and in both situations `Int.emod`
  agrees with the JavaScript operator.
* The `lunar-javascript` library (`Lunar.fromYmd(y, m, d)` followed by
  `getSolar()`) is external to the repository; per the spec it is treated
  as an oracle that either yields a solar date or throws on non-existent
  lunar dates.  It is modelled by a parameter of type `LunarOracle`, with
  `none` standing for a thrown conversion error.
-/

namespace Timer

/-- Gregorian leap-year test, as used by JavaScript `Date` calendar
arithmetic. -/
def isLeap (y : Int) : Bool :=
  y % 4 = 0 && (y % 100 ≠ 0 || y % 400 = 0)

/-- Number of days in month `m` (1-based) of year `y`. -/
def monthLen (y m : Int) : Int :=
  if m = 2 then (if isLeap y then 29 else 28)
  else if m = 4 ∨ m = 6 ∨ m = 9 ∨ m = 11 then 30
  else 31

/-- Day number of the civil date `(y, m, d)` counted from the epoch
1970-01-01 (day 0), by the standard floor-division formula for the
proleptic Gregorian calendar (months are 1-based).  `Int.ediv` is floor
division here because every divisor is positive. -/
def daysFromCivil (y m d : Int) : Int :=
  let yAdj := if m ≤ 2 then y - 1 else y
  let mp := if 2 < m then m - 3 else m + 9
  365 * yAdj + yAdj / 4 - yAdj / 100 + yAdj / 400
    + (153 * mp + 2) / 5 + d - 1 - 719468

/-- A JavaScript `Date` at calendar-day granularity: the local-time fields
`getFullYear()`, `getMonth() + 1` (so `month` is 1-based) and `getDate()`. -/
structure JsDate where
  year : Int
  month : Int
  day : Int
deriving DecidableEq, Repr

/-- The day number of a `JsDate` counted from the epoch. -/
def JsDate.abs (d : JsDate) : Int := daysFromCivil d.year d.month d.day

/-- JavaScript `date.getDay()`: day of week, 0 = Sunday … 6 = Saturday.
1970-01-01 (day 0) was a Thursday (4). -/
def jsGetDay (d : JsDate) : Int := (d.abs + 4) % 7

/-- Day-of-month normalization: JavaScript `Date` rolls a day-of-month
outside `1 .. monthLen` over into adjacent months.  The rollover loop is
written with explicit fuel; each step moves the day into a neighbouring
month, so any fuel larger than the number of months spanned (always the
case at the call sites below) reaches the normalized date. -/
def normDay (fuel : Nat) (y m d : Int) : JsDate :=
  match fuel with
  | 0 => ⟨y, m, d⟩
  | fuel + 1 =>
    if d < 1 then
      let y' := if m = 1 then y - 1 else y
      let m' := if m = 1 then 12 else m - 1
      normDay fuel y' m' (d + monthLen y' m')
    else if monthLen y m < d then
      normDay fuel (if m = 12 then y + 1 else y) (if m = 12 then 1 else m + 1)
        (d - monthLen y m)
    else ⟨y, m, d⟩

/-- JavaScript `new Date(year, monthIndex, day)` (local time, day
granularity): the 0-based `monthIndex` first rolls into the year
(ECMAScript `MakeDay` uses floor division and positive modulo), then the
day-of-month rolls across month boundaries. -/
def mkJsDate (year monthIndex day : Int) : JsDate :=
  normDay (day.natAbs + 48) (year + monthIndex / 12) (monthIndex % 12 + 1) day

/-- JavaScript `date.setDate(n)`: replace the day-of-month by `n`,
rolling across month boundaries. -/
def jsSetDate (dt : JsDate) (n : Int) : JsDate :=
  normDay (n.natAbs + 48) dt.year dt.month n

/-- `date-fns` `differenceInDays(a, b)` on two day-granularity (midnight)
dates: the difference of their day numbers. -/
def jsDifferenceInDays (a b : JsDate) : Int := a.abs - b.abs

/-- `toZonedTime(d, 'America/Los_Angeles')` followed by
`setHours(0, 0, 0, 0)`, at calendar-day granularity (see the header):
the identity on the calendar day. -/
def toPacificMidnight (d : JsDate) : JsDate := d

/-- `new Date(9999, 0, 1)`: the far-future sentinel returned when a lunar
conversion throws. -/
def sentinel9999 : JsDate := ⟨9999, 1, 1⟩

/-- `new Date(0)`: the epoch instant, used by the Inauguration Day rule as
the "does not occur this year" sentinel (its UTC calendar fields). -/
def epochDate : JsDate := ⟨1970, 1, 1⟩

/-- The external lunar→solar conversion: `Lunar.fromYmd(y, m, d)` followed
by `getSolar()`, read off as the solar calendar date
`(getYear(), getMonth(), getDay())`.  `none` models a thrown conversion
error (non-existent lunar date). -/
def LunarOracle : Type := Int → Int → Int → Option JsDate

/-- A holiday rule: the `Holiday` interface shared by `CalendarWidget`,
`HolidayCountdown` and `HolidaySettingsModal` (`type` is the display tag
added when merging the catalogs; it does not affect matching). -/
structure Holiday where
  name : String
  month : Int
  day : Int
  isFixed : Bool
  isLunar : Bool := false
  type : String := ""
  getDate : Int → JsDate

/-- Martin Luther King Jr. Day `getDate`: third Monday of January via
`date.setDate(1 + (15 - date.getDay() + 7) % 7 + 14)` on January 1. -/
def mlkGetDate (year : Int) : JsDate :=
  let date := mkJsDate year 0 1
  jsSetDate date (1 + (15 - jsGetDay date + 7) % 7 + 14)

/-- Inauguration Day `getDate`: January 20 on years following presidential
elections (`(year - 1) % 4 === 0`), otherwise `new Date(0)`. -/
def inaugurationGetDate (year : Int) : JsDate :=
  if (year - 1) % 4 = 0 then mkJsDate year 0 20 else epochDate

/-- Presidents' Day `getDate`: third Monday of February via the same
modular formula on February 1. -/
def presidentsGetDate (year : Int) : JsDate :=
  let date := mkJsDate year 1 1
  jsSetDate date (1 + (15 - jsGetDay date + 7) % 7 + 14)

/-- Easter Sunday `getDate`: the simplified congruential computation from
the source (all intermediate quantities are non-negative for `year ≥ 0`,
so `Int.emod` / `Int.ediv` agree with the JavaScript operators there). -/
def easterGetDate (year : Int) : JsDate :=
  let a := year % 19
  let b := year / 100
  let c := year % 100
  let d := b / 4
  let e := b % 4
  let f := (b + 8) / 25
  let g := (b - f + 1) / 3
  let h := (19 * a + b - d - g + 15) % 30
  let i := c / 4
  let k := c % 4
  let l := (32 + 2 * e + 2 * i - h - k) % 7
  let m := (a + 11 * h + 22 * l) / 451
  let month := (h + l - 7 * m + 114) / 31
  let day := (h + l - 7 * m + 114) % 31 + 1
  mkJsDate year (month - 1) day

/-- Memorial Day `getDate`: start at May 31 and decrement the day while the
weekday is not Monday.  The `while` loop is written with fuel 7: the
weekday cycles with period 7, so at most 6 decrements happen. -/
def backToMonday (fuel : Nat) (dt : JsDate) : JsDate :=
  match fuel with
  | 0 => dt
  | fuel + 1 =>
    if jsGetDay dt = 1 then dt else backToMonday fuel (jsSetDate dt (dt.day - 1))

/-- Labor Day `getDate`: start at September 1 and increment the day while
the weekday is not Monday (fuel 7, as for `backToMonday`). -/
def forwardToMonday (fuel : Nat) (dt : JsDate) : JsDate :=
  match fuel with
  | 0 => dt
  | fuel + 1 =>
    if jsGetDay dt = 1 then dt else forwardToMonday fuel (jsSetDate dt (dt.day + 1))

def memorialGetDate (year : Int) : JsDate :=
  backToMonday 7 (mkJsDate year 4 31)

def laborGetDate (year : Int) : JsDate :=
  forwardToMonday 7 (mkJsDate year 8 1)

/-- Columbus Day `getDate`: second Monday of October. -/
def columbusGetDate (year : Int) : JsDate :=
  let date := mkJsDate year 9 1
  jsSetDate date (1 + (8 - jsGetDay date + 7) % 7 + 7)

/-- Thanksgiving `getDate`: fourth Thursday of November. -/
def thanksgivingGetDate (year : Int) : JsDate :=
  let date := mkJsDate year 10 1
  jsSetDate date (1 + (4 - jsGetDay date + 7) % 7 + 21)

/-- `US_HOLIDAYS` of `CalendarWidget` (identical in both widget variants). -/
def US_HOLIDAYS : List Holiday :=
  [ ⟨"New Year\x27s Day", 1, 1, true, false, "", fun year => mkJsDate year 0 1⟩,
    ⟨"Martin Luther King Jr. Day", 1, 15, false, false, "", mlkGetDate⟩,
    ⟨"Inauguration Day", 1, 20, false, false, "", inaugurationGetDate⟩,
    ⟨"Presidents\x27 Day", 2, 15, false, false, "", presidentsGetDate⟩,
    ⟨"Easter Sunday", 3, 31, false, false, "", easterGetDate⟩,
    ⟨"Memorial Day", 5, 31, false, false, "", memorialGetDate⟩,
    ⟨"Juneteenth", 6, 19, true, false, "", fun year => mkJsDate year 5 19⟩,
    ⟨"Independence Day", 7, 4, true, false, "", fun year => mkJsDate year 6 4⟩,
    ⟨"Labor Day", 9, 1, false, false, "", laborGetDate⟩,
    ⟨"Columbus Day", 10, 8, false, false, "", columbusGetDate⟩,
    ⟨"Veterans Day", 11, 11, true, false, "", fun year => mkJsDate year 10 11⟩,
    ⟨"Thanksgiving Day", 11, 24, false, false, "", thanksgivingGetDate⟩,
    ⟨"Christmas Day", 12, 25, true, false, "", fun year => mkJsDate year 11 25⟩,
    ⟨"Halloween", 10, 31, true, false, "", fun year => mkJsDate year 9 31⟩ ]

/-- The lunar-anchored built-in `getDate`: `Lunar.fromYmd(year, m, d)`,
`getSolar()`, then `new Date(getYear(), getMonth() - 1, getDay())`;
a thrown conversion error is caught and mapped to `new Date(9999, 0, 1)`. -/
def builtinLunarGetDate (o : LunarOracle) (m d year : Int) : JsDate :=
  match o year m d with
  | some s => mkJsDate s.year (s.month - 1) s.day
  | none => sentinel9999

/-- `CHINESE_HOLIDAYS` of the `CalendarWidget` variant that renders the
merged catalogs (the variant with per-entry `getDate`). -/
def CHINESE_HOLIDAYS (o : LunarOracle) : List Holiday :=
  [ ⟨"春节", 1, 1, true, true, "Chinese", builtinLunarGetDate o 1 1⟩,
    ⟨"清明节", 4, 5, true, false, "Chinese", fun year => mkJsDate year 3 5⟩,
    ⟨"国际劳动妇女节", 3, 8, true, false, "Chinese", fun year => mkJsDate year 2 8⟩,
    ⟨"植树节", 3, 12, true, false, "Chinese", fun year => mkJsDate year 2 12⟩,
    ⟨"国际劳动节", 5, 1, true, false, "Chinese", fun year => mkJsDate year 4 1⟩,
    ⟨"中国青年节", 5, 4, true, false, "Chinese", fun year => mkJsDate year 4 4⟩,
    ⟨"端午节", 5, 5, true, true, "Chinese", builtinLunarGetDate o 5 5⟩,
    ⟨"儿童节", 6, 1, true, false, "Chinese", fun year => mkJsDate year 5 1⟩,
    ⟨"教师节", 9, 10, true, false, "Chinese", fun year => mkJsDate year 8 10⟩,
    ⟨"中秋节", 8, 15, true, true, "Chinese", builtinLunarGetDate o 8 15⟩,
    ⟨"国庆节", 10, 1, true, false, "Chinese", fun year => mkJsDate year 9 1⟩ ]

/-- `HOLIDAYS` of `HolidayCountdown`: the six default countdown rules. -/
def HOLIDAYS : List Holiday :=
  [ ⟨"New Year\x27s Day", 1, 1, true, false, "", fun year => mkJsDate year 0 1⟩,
    ⟨"Martin Luther King Jr. Day", 1, 15, false, false, "", mlkGetDate⟩,
    ⟨"Memorial Day", 5, 31, false, false, "", memorialGetDate⟩,
    ⟨"Independence Day", 7, 4, true, false, "", fun year => mkJsDate year 6 4⟩,
    ⟨"Thanksgiving", 11, 24, false, false, "", thanksgivingGetDate⟩,
    ⟨"Christmas Day", 12, 25, true, false, "", fun year => mkJsDate year 11 25⟩ ]

/-- The custom solar `getDate` branch (identical in `handleAddNewHoliday`
and in the `customHolidays` reconstruction): `new Date(year, month - 1,
day)`, converted to the fixed zone and zeroed to midnight. -/
def customSolarGetDate (month day year : Int) : JsDate :=
  toPacificMidnight (mkJsDate year (month - 1) day)

/-- `isValidLunarDate` of `HolidaySettingsModal`: the conversion must
succeed and the solar year must lie strictly between 0 and 9999. -/
def isValidLunarDate (o : LunarOracle) (year month day : Int) : Bool :=
  match o year month day with
  | some s => 0 < s.year && s.year < 9999
  | none => false

/-- A lunar `(year, month, day)` triple as returned by
`getNextValidLunarDate`. -/
structure LunarTriple where
  year : Int
  month : Int
  day : Int
deriving DecidableEq, Repr

/-- `getNextValidLunarDate` of `HolidaySettingsModal`: try `day`, then
`day - 1`, then `day + 1`; if none validates, return the original triple. -/
def getNextValidLunarDate (o : LunarOracle) (year month day : Int) : LunarTriple :=
  if isValidLunarDate o year month day then ⟨year, month, day⟩
  else if isValidLunarDate o year month (day - 1) then ⟨year, month, day - 1⟩
  else if isValidLunarDate o year month (day + 1) then ⟨year, month, day + 1⟩
  else ⟨year, month, day⟩

/-- The custom lunar `getDate` built by `handleAddNewHoliday`
(`HolidaySettingsModal`): probe the triple with `getNextValidLunarDate`,
convert, build the solar date, normalize to the fixed zone; a thrown
conversion error yields the year-9999 sentinel. -/
def addedLunarGetDate (o : LunarOracle) (month day year : Int) : JsDate :=
  let v := getNextValidLunarDate o year month day
  match o v.year v.month v.day with
  | some s => toPacificMidnight (mkJsDate s.year (s.month - 1) s.day)
  | none => sentinel9999

/-- The custom lunar `getDate` reconstructed from storage by the
`customHolidays` initializer of `HolidayCountdown`: convert the stored
triple directly (no validity probe), with the same error handling. -/
def restoredLunarGetDate (o : LunarOracle) (month day year : Int) : JsDate :=
  match o year month day with
  | some s => toPacificMidnight (mkJsDate s.year (s.month - 1) s.day)
  | none => sentinel9999

/-- The full custom `getDate` of `handleAddNewHoliday`. -/
def addedCustomGetDate (o : LunarOracle) (isLunar : Bool) (month day year : Int) : JsDate :=
  if isLunar then addedLunarGetDate o month day year
  else customSolarGetDate month day year

/-- The full custom `getDate` reconstructed from storage by
`HolidayCountdown` (`JSON.parse` then re-attach `getDate` from the stored
`(month, day, isLunar)` fields). -/
def restoredCustomGetDate (o : LunarOracle) (isLunar : Bool) (month day year : Int) : JsDate :=
  if isLunar then restoredLunarGetDate o month day year
  else customSolarGetDate month day year

/-! ## The countdown search (`calculateNextHoliday` of `HolidayCountdown`) -/

/-- The mutable state of `calculateNextHoliday`: the best candidate so far
(`nextHolidayInfo`) and its day-difference (`minDays`; `none` models the
initial `Infinity`). -/
structure SearchState where
  nextHolidayInfo : Option (Holiday × JsDate)
  minDays : Option Int

/-- `daysUntilHoliday < minDays`, with `minDays = none` standing for
`Infinity` (against which every number compares smaller). -/
def ltMinDays (du : Int) : Option Int → Prop
  | none => True
  | some m => du < m

instance (du : Int) : (m : Option Int) → Decidable (ltMinDays du m)
  | none => isTrue trivial
  | some m => inferInstanceAs (Decidable (du < m))

/-- One loop body of `calculateNextHoliday`: given the candidate's resolved
date, update the state when the day-difference is non-negative and
strictly below the minimum so far. -/
def searchStep (today : JsDate) (st : SearchState) (c : Holiday × JsDate) : SearchState :=
  let daysUntilHoliday := jsDifferenceInDays c.2 today
  if 0 ≤ daysUntilHoliday ∧ ltMinDays daysUntilHoliday st.minDays then
    ⟨some c, some daysUntilHoliday⟩
  else st

/-- `calculateNextHoliday` of `HolidayCountdown`: filter the default rules
by the disabled-name list, then scan the enabled defaults for the current
year, the enabled defaults for the next year, the custom rules for the
current year and the custom rules for the next year, keeping the candidate
with the smallest non-negative `differenceInDays` (strict improvement, so
the first candidate attaining the minimum is kept).  The module-level
`HOLIDAYS` constant and the `customHolidays` / `disabledDefaultHolidays`
state are parameters here. -/
def calculateNextHoliday (defaults customs : List Holiday)
    (disabledDefaultHolidays : List String) (today : JsDate) :
    Option (Holiday × JsDate) :=
  let currentYear := today.year
  let nextYear := currentYear + 1
  let enabledDefaultHolidays :=
    defaults.filter (fun h => ¬ disabledDefaultHolidays.contains h.name)
  let s0 : SearchState := ⟨none, none⟩
  let s1 := enabledDefaultHolidays.foldl
    (fun st h => searchStep today st (h, h.getDate currentYear)) s0
  let s2 := enabledDefaultHolidays.foldl
    (fun st h => searchStep today st (h, h.getDate nextYear)) s1
  let s3 := customs.foldl
    (fun st h => searchStep today st (h, h.getDate currentYear)) s2
  let s4 := customs.foldl
    (fun st h => searchStep today st (h, h.getDate nextYear)) s3
  s4.nextHolidayInfo

/-- The sequence of candidates `calculateNextHoliday` examines, in scan
order: enabled defaults at the instant's year, enabled defaults at the
following year, custom rules at the instant's year, custom rules at the
following year. -/
def candidateList (defaults customs : List Holiday)
    (disabledDefaultHolidays : List String) (today : JsDate) :
    List (Holiday × JsDate) :=
  let y := today.year
  let enabled := defaults.filter (fun h => ¬ disabledDefaultHolidays.contains h.name)
  enabled.map (fun h => (h, h.getDate y))
    ++ enabled.map (fun h => (h, h.getDate (y + 1)))
    ++ customs.map (fun h => (h, h.getDate y))
    ++ customs.map (fun h => (h, h.getDate (y + 1)))

/-! ## The calendar matcher (`getHolidaysForDate` of `CalendarWidget`) -/

/-- A holiday matches a calendar day when its resolved date for that day's
year has the same month and day-of-month (`holidayDate.getMonth() ===
date.getMonth() && holidayDate.getDate() === date.getDate()`). -/
def matchesOn (h : Holiday) (date : JsDate) : Prop :=
  (h.getDate date.year).month = date.month ∧ (h.getDate date.year).day = date.day

instance (h : Holiday) (date : JsDate) : Decidable (matchesOn h date) :=
  inferInstanceAs (Decidable (_ ∧ _))

/-- The `forEach` loop of `getHolidaysForDate`: walk the merged catalog,
push every matching holiday whose name has not been seen yet, and record
pushed names in the seen-set. -/
def collectMatching (date : JsDate) : List Holiday → List String → List Holiday
  | [], _ => []
  | h :: rest, seen =>
    if matchesOn h date then
      if seen.contains h.name then collectMatching date rest seen
      else h :: collectMatching date rest (h.name :: seen)
    else collectMatching date rest seen

/-- The merged catalog of `getHolidaysForDate`: `US_HOLIDAYS` tagged `US`,
then `CHINESE_HOLIDAYS` tagged `Chinese`, then the `holidays` prop tagged
`Custom`. -/
def mergedCatalog (o : LunarOracle) (holidays : List Holiday) : List Holiday :=
  US_HOLIDAYS.map (fun h => { h with type := "US" })
    ++ (CHINESE_HOLIDAYS o).map (fun h => { h with type := "Chinese" })
    ++ holidays.map (fun h => { h with type := "Custom" })

/-- `getHolidaysForDate` of the `CalendarWidget` variant with a `holidays`
prop: deduplicate the matching holidays of the merged catalog by name,
first occurrence winning. -/
def getHolidaysForDate (o : LunarOracle) (holidays : List Holiday)
    (date : JsDate) : List Holiday :=
  collectMatching date (mergedCatalog o holidays) []

/-- The `holidays` prop `HolidayCountdown` passes to `CalendarWidget`:
`[...HOLIDAYS, ...customHolidays]` — the full default list, not filtered
by `disabledDefaultHolidays`. -/
def calendarHolidaysProp (customHolidays : List Holiday) : List Holiday :=
  HOLIDAYS ++ customHolidays

/-! ## The special-date tracker (`calculateNextSpecialDate` of `Clock`) -/

/-- The type tag of a special date. -/
inductive SDType where
  | birthday
  | anniversary
deriving DecidableEq, Repr

/-- A `SpecialDate` of `Clock`: solar-only, annual. -/
structure SpecialDate where
  name : String
  month : Int
  day : Int
  type : SDType
deriving DecidableEq, Repr

/-- An entry of the `upcomingDates` working list (before the final
projection): name, resolved date, type and days-until. -/
structure Upcoming where
  name : String
  date : JsDate
  type : SDType
  days : Int
deriving DecidableEq, Repr

/-- The final entries shown by the clock (`{ name, days, type }`). -/
structure UpEntry where
  name : String
  days : Int
  type : SDType
deriving DecidableEq, Repr

/-- The loop body of `calculateNextSpecialDate` for one special date.
`isFuture` / `isBefore` compare instants; at day granularity (the
reference instant `today` is already normalized to midnight by
`setHours(0,0,0,0)`) they compare day numbers.  The two `if` blocks are
translated verbatim: the first pushes this year's occurrence when it is
today or in the future and at most 7 days away; the second pushes next
year's occurrence when this year's has passed or is more than 7 days away
and next year's is within the window. -/
def specialDatePushes (today : JsDate) (sd : SpecialDate) : List Upcoming :=
  let sDateThisYear := mkJsDate today.year (sd.month - 1) sd.day
  let sDateNextYear := mkJsDate (today.year + 1) (sd.month - 1) sd.day
  (if today.abs < sDateThisYear.abs ∨
      (¬ today.abs < sDateThisYear.abs ∧ ¬ sDateThisYear.abs < today.abs) then
    let daysUntil := jsDifferenceInDays sDateThisYear today
    if 0 ≤ daysUntil ∧ daysUntil ≤ 7 then
      [⟨sd.name, sDateThisYear, sd.type, daysUntil⟩]
    else []
  else [])
  ++
  (if sDateThisYear.abs < today.abs ∨ 7 < jsDifferenceInDays sDateThisYear today then
    let daysUntilNextYear := jsDifferenceInDays sDateNextYear today
    if 0 ≤ daysUntilNextYear ∧ daysUntilNextYear ≤ 7 then
      [⟨sd.name, sDateNextYear, sd.type, daysUntilNextYear⟩]
    else []
  else [])

/-- `calculateNextSpecialDate` of `Clock`: collect the windowed upcoming
occurrences of every special date, sort them ascending by `days`
(JavaScript `Array.prototype.sort` with comparator `a.days - b.days` is a
stable sort, modelled by `mergeSort`), and project to
`{ name, days, type }`. -/
def calculateNextSpecialDate (specialDates : List SpecialDate)
    (today : JsDate) : List UpEntry :=
  let upcomingDates :=
    specialDates.foldl (fun acc sd => acc ++ specialDatePushes today sd) []
  let sorted := upcomingDates.mergeSort (fun a b => a.days ≤ b.days)
  sorted.map (fun u => ⟨u.name, u.days, u.type⟩)

/-! ## Specification-side definitions (refinement comparators)

These definitions follow the wording of the specification, to be compared
with the definitions translated from the source. -/

/-- Modelled from the spec: the "Nth weekday of month" date — "start at
the 1st of the target month, add `(targetWeekday - firstWeekday + 7) mod 7`
days to land on the first occurrence of the target weekday, then add
`7 * (occurrenceIndex - 1)` days". -/
def specNthWeekday (year month targetWeekday occurrenceIndex : Int) : JsDate :=
  ⟨year, month,
    1 + (targetWeekday - jsGetDay ⟨year, month, 1⟩ + 7) % 7
      + 7 * (occurrenceIndex - 1)⟩

/-- Modelled from the spec (claim C10): the single windowed entry one
special date should contribute — this year's occurrence when it is
today-or-future and within the 7-day window, otherwise next year's
occurrence when that is within the window, otherwise nothing. -/
def specUpcoming (today : JsDate) (sd : SpecialDate) : Option Upcoming :=
  let thisY := mkJsDate today.year (sd.month - 1) sd.day
  let nextY := mkJsDate (today.year + 1) (sd.month - 1) sd.day
  if today.abs ≤ thisY.abs ∧ thisY.abs - today.abs ≤ 7 then
    some ⟨sd.name, thisY, sd.type, thisY.abs - today.abs⟩
  else if 0 ≤ nextY.abs - today.abs ∧ nextY.abs - today.abs ≤ 7 then
    some ⟨sd.name, nextY, sd.type, nextY.abs - today.abs⟩
  else none

/-- The windowed entry of `specUpcoming` projected to the displayed
`{ name, days, type }` record. -/
def specEntry (today : JsDate) (sd : SpecialDate) : Option UpEntry :=
  (specUpcoming today sd).map (fun u => ⟨u.name, u.days, u.type⟩)

/-! ## Concrete instances used by witnesses and counterexamples -/

/-- A lunar-conversion instance on which every conversion throws;
legitimate under the spec's error contract for the external converter. -/
def failingOracle : LunarOracle := fun _ _ _ => none

/-- A concrete lunar-conversion instance covering the handful of lunar
dates used by the witnesses below.  It reflects the real almanac around
lunar year 2025: lunar 2025-01-01 is 2025-01-29, lunar 2025-05-05 is
2025-05-31, and lunar month 5 of 2025 has only 29 days (2025-06-24 being
lunar 2025-05-29), so lunar 2025-05-30 does not exist and conversion of it
throws. -/
def sampleOracle : LunarOracle := fun y m d =>
  if y = 2025 ∧ m = 1 ∧ d = 1 then some ⟨2025, 1, 29⟩
  else if y = 2025 ∧ m = 5 ∧ d = 5 then some ⟨2025, 5, 31⟩
  else if y = 2025 ∧ m = 5 ∧ d = 29 then some ⟨2025, 6, 24⟩
  else none

/-- A catalog input for the tie-break analysis: a plain fixed rule on
January 1. -/
def janFirstRule : Holiday :=
  ⟨"JanFirst", 1, 1, true, false, "", fun year => mkJsDate year 0 1⟩

/-- A catalog input whose current-year resolution falls in the next solar
year, as happens for rules anchored late in the lunar year (a lunar
month-12 date resolves to January of the following solar year). -/
def crossYearRule : Holiday :=
  ⟨"CrossYear", 12, 2, false, true, "", fun year => mkJsDate (year + 1) 0 1⟩

end Timer

namespace Timer

-- Sanity checks of the calendar arithmetic (known dates and weekdays).
example : daysFromCivil 1970 1 1 = 0 := by decide
example : jsGetDay ⟨2024, 9, 2⟩ = 1 := by decide
example : jsGetDay ⟨2024, 5, 27⟩ = 1 := by decide
example : mkJsDate 2024 1 30 = ⟨2024, 3, 1⟩ := by decide
example : mkJsDate 2024 0 1 = ⟨2024, 1, 1⟩ := by decide

-- Sanity checks of the resolution functions on known dates.
example : laborGetDate 2024 = ⟨2024, 9, 2⟩ := by decide
example : memorialGetDate 2024 = ⟨2024, 5, 27⟩ := by decide
example : mlkGetDate 2024 = ⟨2024, 1, 15⟩ := by decide
example : thanksgivingGetDate 2024 = ⟨2024, 11, 28⟩ := by decide
example : easterGetDate 2024 = ⟨2024, 3, 31⟩ := by decide
example : inaugurationGetDate 2025 = ⟨2025, 1, 20⟩ := by decide
example : inaugurationGetDate 2024 = epochDate := by decide

/-! ## Calendar arithmetic lemmas -/

theorem monthLen_lb (y m : Int) : 28 ≤ monthLen y m := by
  unfold monthLen
  split_ifs <;> norm_num

theorem normDay_eq_self (fuel : Nat) (y m d : Int) (hf : 0 < fuel)
    (h1 : 1 ≤ d) (h2 : d ≤ monthLen y m) : normDay fuel y m d = ⟨y, m, d⟩ := by
  cases fuel with
  | zero => omega
  | succ f =>
    simp only [normDay]
    rw [if_neg (by omega), if_neg (by omega)]

theorem mkJsDate_valid (year m d : Int) (hm1 : 1 ≤ m) (hm2 : m ≤ 12)
    (hd1 : 1 ≤ d) (hd2 : d ≤ monthLen year m) :
    mkJsDate year (m - 1) d = ⟨year, m, d⟩ := by
  unfold mkJsDate
  have h1 : (m - 1) / 12 = 0 := by omega
  have h2 : (m - 1) % 12 + 1 = m := by omega
  rw [h1, h2, add_zero]
  exact normDay_eq_self _ _ _ _ (by omega) hd1 hd2

theorem daysFromCivil_shift (y m d k : Int) :
    daysFromCivil y m (d + k) = daysFromCivil y m d + k := by
  simp only [daysFromCivil]
  split_ifs <;> omega

theorem jsGetDay_nonneg (d : JsDate) : 0 ≤ jsGetDay d :=
  Int.emod_nonneg _ (by norm_num)

theorem jsGetDay_lt (d : JsDate) : jsGetDay d < 7 :=
  Int.emod_lt_of_pos _ (by norm_num)

theorem jsGetDay_shift (y m d k : Int) :
    jsGetDay ⟨y, m, d + k⟩ = (jsGetDay ⟨y, m, d⟩ + k) % 7 := by
  show (daysFromCivil y m (d + k) + 4) % 7
      = ((daysFromCivil y m d + 4) % 7 + k) % 7
  rw [daysFromCivil_shift]
  omega

theorem jsSetDate_in_month (y m d n : Int) (h1 : 1 ≤ n) (h2 : n ≤ monthLen y m) :
    jsSetDate ⟨y, m, d⟩ n = ⟨y, m, n⟩ :=
  normDay_eq_self _ _ _ _ (by omega) h1 h2

/-! ## The "Nth weekday of month" rules match the spec formula -/

theorem mlk_eq_spec (y : Int) : mlkGetDate y = specNthWeekday y 1 1 3 := by
  have hmk : mkJsDate y 0 1 = ⟨y, 1, 1⟩ := by
    simpa using mkJsDate_valid y 1 1 (by norm_num) (by norm_num) (by norm_num)
      (by have := monthLen_lb y 1; omega)
  simp only [mlkGetDate, specNthWeekday]
  rw [hmk]
  have h0 := jsGetDay_nonneg ⟨y, 1, 1⟩
  have h7 := jsGetDay_lt ⟨y, 1, 1⟩
  have e0 : 0 ≤ (15 - jsGetDay ⟨y, 1, 1⟩ + 7) % 7 := Int.emod_nonneg _ (by norm_num)
  have e7 : (15 - jsGetDay ⟨y, 1, 1⟩ + 7) % 7 < 7 := Int.emod_lt_of_pos _ (by norm_num)
  rw [jsSetDate_in_month y 1 1 _ (by omega) (by have := monthLen_lb y 1; omega)]
  simp only [JsDate.mk.injEq, true_and]
  omega

theorem presidents_eq_spec (y : Int) : presidentsGetDate y = specNthWeekday y 2 1 3 := by
  have hmk : mkJsDate y 1 1 = ⟨y, 2, 1⟩ := by
    simpa using mkJsDate_valid y 2 1 (by norm_num) (by norm_num) (by norm_num)
      (by have := monthLen_lb y 2; omega)
  simp only [presidentsGetDate, specNthWeekday]
  rw [hmk]
  have h0 := jsGetDay_nonneg ⟨y, 2, 1⟩
  have h7 := jsGetDay_lt ⟨y, 2, 1⟩
  have e0 : 0 ≤ (15 - jsGetDay ⟨y, 2, 1⟩ + 7) % 7 := Int.emod_nonneg _ (by norm_num)
  have e7 : (15 - jsGetDay ⟨y, 2, 1⟩ + 7) % 7 < 7 := Int.emod_lt_of_pos _ (by norm_num)
  rw [jsSetDate_in_month y 2 1 _ (by omega) (by have := monthLen_lb y 2; omega)]
  simp only [JsDate.mk.injEq, true_and]
  omega

theorem columbus_eq_spec (y : Int) : columbusGetDate y = specNthWeekday y 10 1 2 := by
  have hmk : mkJsDate y 9 1 = ⟨y, 10, 1⟩ := by
    simpa using mkJsDate_valid y 10 1 (by norm_num) (by norm_num) (by norm_num)
      (by have := monthLen_lb y 10; omega)
  simp only [columbusGetDate, specNthWeekday]
  rw [hmk]
  have h0 := jsGetDay_nonneg ⟨y, 10, 1⟩
  have h7 := jsGetDay_lt ⟨y, 10, 1⟩
  have e0 : 0 ≤ (8 - jsGetDay ⟨y, 10, 1⟩ + 7) % 7 := Int.emod_nonneg _ (by norm_num)
  have e7 : (8 - jsGetDay ⟨y, 10, 1⟩ + 7) % 7 < 7 := Int.emod_lt_of_pos _ (by norm_num)
  rw [jsSetDate_in_month y 10 1 _ (by omega) (by have := monthLen_lb y 10; omega)]
  simp only [JsDate.mk.injEq, true_and]
  omega

theorem thanksgiving_eq_spec (y : Int) :
    thanksgivingGetDate y = specNthWeekday y 11 4 4 := by
  have hmk : mkJsDate y 10 1 = ⟨y, 11, 1⟩ := by
    simpa using mkJsDate_valid y 11 1 (by norm_num) (by norm_num) (by norm_num)
      (by have := monthLen_lb y 11; omega)
  simp only [thanksgivingGetDate, specNthWeekday]
  rw [hmk]
  have h0 := jsGetDay_nonneg ⟨y, 11, 1⟩
  have h7 := jsGetDay_lt ⟨y, 11, 1⟩
  have e0 : 0 ≤ (4 - jsGetDay ⟨y, 11, 1⟩ + 7) % 7 := Int.emod_nonneg _ (by norm_num)
  have e7 : (4 - jsGetDay ⟨y, 11, 1⟩ + 7) % 7 < 7 := Int.emod_lt_of_pos _ (by norm_num)
  rw [jsSetDate_in_month y 11 1 _ (by omega) (by have := monthLen_lb y 11; omega)]
  simp only [JsDate.mk.injEq, true_and]
  omega

/-! ## The weekday-search loops (Labor Day forward, Memorial Day backward) -/

theorem forwardToMonday_reaches : ∀ (f : Nat) (y m d j : Int), 0 ≤ j → j < f →
    1 ≤ d → d + j ≤ monthLen y m →
    (∀ i : Int, 0 ≤ i → i < j → jsGetDay ⟨y, m, d + i⟩ ≠ 1) →
    jsGetDay ⟨y, m, d + j⟩ = 1 →
    forwardToMonday f ⟨y, m, d⟩ = ⟨y, m, d + j⟩
  | 0 => by intro y m d j hj0 hjf hd1 hdm hne hhit; exact absurd hjf (by norm_num; omega)
  | f + 1 => by
    intro y m d j hj0 hjf hd1 hdm hne hhit
    by_cases hstart : jsGetDay ⟨y, m, d⟩ = 1
    · have hj : j = 0 := by
        by_contra hne0
        exact hne 0 le_rfl (by omega) (by simpa using hstart)
      subst hj
      simp only [forwardToMonday, if_pos hstart]
      norm_num
    · have hj : 0 < j := by
        rcases lt_or_eq_of_le hj0 with h | h
        · exact h
        · exact absurd (by simpa [← h] using hhit) hstart
      simp only [forwardToMonday, if_neg hstart]
      have hset : jsSetDate ⟨y, m, d⟩ ((⟨y, m, d⟩ : JsDate).day + 1) = ⟨y, m, d + 1⟩ := by
        have := monthLen_lb y m
        exact jsSetDate_in_month y m d (d + 1) (by omega) (by omega)
      rw [hset]
      have hrec := forwardToMonday_reaches f y m (d + 1) (j - 1) (by omega)
        (by push_cast at hjf ⊢; omega) (by omega) (by omega)
        (fun i hi0 hij => by
          have h := hne (i + 1) (by omega) (by omega)
          rwa [show d + (i + 1) = d + 1 + i by ring] at h)
        (by rw [show d + 1 + (j - 1) = d + j by ring]; exact hhit)
      rwa [show d + 1 + (j - 1) = d + j by ring] at hrec

theorem backToMonday_reaches : ∀ (f : Nat) (y m d j : Int), 0 ≤ j → j < f →
    1 ≤ d - j → d ≤ monthLen y m →
    (∀ i : Int, 0 ≤ i → i < j → jsGetDay ⟨y, m, d - i⟩ ≠ 1) →
    jsGetDay ⟨y, m, d - j⟩ = 1 →
    backToMonday f ⟨y, m, d⟩ = ⟨y, m, d - j⟩
  | 0 => by intro y m d j hj0 hjf hd1 hdm hne hhit; exact absurd hjf (by norm_num; omega)
  | f + 1 => by
    intro y m d j hj0 hjf hd1 hdm hne hhit
    by_cases hstart : jsGetDay ⟨y, m, d⟩ = 1
    · have hj : j = 0 := by
        by_contra hne0
        exact hne 0 le_rfl (by omega) (by simpa using hstart)
      subst hj
      simp only [backToMonday, if_pos hstart]
      norm_num
    · have hj : 0 < j := by
        rcases lt_or_eq_of_le hj0 with h | h
        · exact h
        · exact absurd (by simpa [← h] using hhit) hstart
      simp only [backToMonday, if_neg hstart]
      have hset : jsSetDate ⟨y, m, d⟩ ((⟨y, m, d⟩ : JsDate).day - 1) = ⟨y, m, d - 1⟩ := by
        exact jsSetDate_in_month y m d (d - 1) (by omega) (by omega)
      rw [hset]
      have hrec := backToMonday_reaches f y m (d - 1) (j - 1) (by omega)
        (by push_cast at hjf ⊢; omega) (by omega) (by omega)
        (fun i hi0 hij => by
          have h := hne (i + 1) (by omega) (by omega)
          rwa [show d - (i + 1) = d - 1 - i by ring] at h)
        (by rw [show d - 1 - (j - 1) = d - j by ring]; exact hhit)
      rwa [show d - 1 - (j - 1) = d - j by ring] at hrec

theorem labor_eq_spec (y : Int) : laborGetDate y = specNthWeekday y 9 1 1 := by
  have hmk : mkJsDate y 8 1 = ⟨y, 9, 1⟩ := by
    simpa using mkJsDate_valid y 9 1 (by norm_num) (by norm_num) (by norm_num)
      (by have := monthLen_lb y 9; omega)
  have hml : monthLen y 9 = 30 := by norm_num [monthLen]
  simp only [laborGetDate, specNthWeekday]
  rw [hmk]
  have h0 := jsGetDay_nonneg ⟨y, 9, 1⟩
  have h7 := jsGetDay_lt ⟨y, 9, 1⟩
  have hshift : ∀ i : Int, jsGetDay ⟨y, 9, 1 + i⟩ = (jsGetDay ⟨y, 9, 1⟩ + i) % 7 :=
    fun i => jsGetDay_shift y 9 1 i
  have e0 : 0 ≤ (1 - jsGetDay ⟨y, 9, 1⟩ + 7) % 7 := Int.emod_nonneg _ (by norm_num)
  have e7 : (1 - jsGetDay ⟨y, 9, 1⟩ + 7) % 7 < 7 := Int.emod_lt_of_pos _ (by norm_num)
  have hj := forwardToMonday_reaches 7 y 9 1 ((1 - jsGetDay ⟨y, 9, 1⟩ + 7) % 7)
    e0 (by push_cast; omega) (by norm_num) (by omega)
    (fun i hi0 hij => by rw [hshift i]; omega)
    (by rw [hshift]; omega)
  rw [hj]
  simp only [JsDate.mk.injEq, true_and]
  omega

theorem memorial_last_monday (y : Int) :
    (memorialGetDate y).year = y ∧ (memorialGetDate y).month = 5 ∧
    25 ≤ (memorialGetDate y).day ∧ (memorialGetDate y).day ≤ 31 ∧
    jsGetDay (memorialGetDate y) = 1 := by
  have hmk : mkJsDate y 4 31 = ⟨y, 5, 31⟩ := by
    simpa using mkJsDate_valid y 5 31 (by norm_num) (by norm_num) (by norm_num)
      (by norm_num [monthLen])
  have hml : monthLen y 5 = 31 := by norm_num [monthLen]
  have h0 := jsGetDay_nonneg ⟨y, 5, 31⟩
  have h7 := jsGetDay_lt ⟨y, 5, 31⟩
  have hshift : ∀ i : Int, jsGetDay ⟨y, 5, 31 - i⟩ = (jsGetDay ⟨y, 5, 31⟩ - i) % 7 := by
    intro i
    have h1 := jsGetDay_shift y 5 (31 - i) i
    rw [show 31 - i + i = (31 : Int) by ring] at h1
    have h2 := jsGetDay_nonneg ⟨y, 5, 31 - i⟩
    have h3 := jsGetDay_lt ⟨y, 5, 31 - i⟩
    omega
  have e0 : 0 ≤ (jsGetDay ⟨y, 5, 31⟩ + 6) % 7 := Int.emod_nonneg _ (by norm_num)
  have e7 : (jsGetDay ⟨y, 5, 31⟩ + 6) % 7 < 7 := Int.emod_lt_of_pos _ (by norm_num)
  have hj := backToMonday_reaches 7 y 5 31 ((jsGetDay ⟨y, 5, 31⟩ + 6) % 7)
    e0 (by push_cast; omega) (by omega) (by omega)
    (fun i hi0 hij => by rw [hshift i]; omega)
    (by rw [hshift]; omega)
  unfold memorialGetDate
  rw [hmk, hj]
  refine ⟨rfl, rfl, by simp only []; omega, by simp only []; omega, ?_⟩
  rw [hshift]
  omega

/-- C8: the floating-solar rules.  The four formula-based rules (Martin
Luther King Jr. Day, Presidents' Day, Columbus Day, Thanksgiving) compute
"Nth weekday of month" exactly as the spec's modular formula
(`specNthWeekday`); Labor Day's forward loop lands on the first Monday of
September, i.e. also agrees with the formula at occurrence 1; Memorial
Day's backward decrement loop from May 31 yields a Monday in the last
seven days of May (the last Monday).  Concretely, Labor Day 2024 resolves
to September 2, 2024 and Memorial Day 2024 to May 27, 2024. -/
theorem floating_rules_resolve_as_specified :
    (∀ y, mlkGetDate y = specNthWeekday y 1 1 3) ∧
    (∀ y, presidentsGetDate y = specNthWeekday y 2 1 3) ∧
    (∀ y, columbusGetDate y = specNthWeekday y 10 1 2) ∧
    (∀ y, thanksgivingGetDate y = specNthWeekday y 11 4 4) ∧
    (∀ y, laborGetDate y = specNthWeekday y 9 1 1) ∧
    (∀ y, (memorialGetDate y).year = y ∧ (memorialGetDate y).month = 5 ∧
      25 ≤ (memorialGetDate y).day ∧ (memorialGetDate y).day ≤ 31 ∧
      jsGetDay (memorialGetDate y) = 1) ∧
    laborGetDate 2024 = ⟨2024, 9, 2⟩ ∧ memorialGetDate 2024 = ⟨2024, 5, 27⟩ :=
  ⟨mlk_eq_spec, presidents_eq_spec, columbus_eq_spec, thanksgiving_eq_spec,
    labor_eq_spec, memorial_last_monday, by decide, by decide⟩

/-- C5: the quadrennial (Inauguration Day) rule resolves to the real date
January 20 of the given year exactly when `(year - 1) mod 4 = 0`, and to
the epoch sentinel `new Date(0)` otherwise. -/
theorem inauguration_quadrennial (year : Int) :
    (inaugurationGetDate year = ⟨year, 1, 20⟩ ↔ (year - 1) % 4 = 0) ∧
    ((year - 1) % 4 ≠ 0 → inaugurationGetDate year = epochDate) := by
  have h20 : mkJsDate year 0 20 = ⟨year, 1, 20⟩ := by
    simpa using mkJsDate_valid year 1 20 (by norm_num) (by norm_num) (by norm_num)
      (by have := monthLen_lb year 1; omega)
  unfold inaugurationGetDate
  by_cases h : (year - 1) % 4 = 0
  · rw [if_pos h, h20]
    exact ⟨⟨fun _ => h, fun _ => rfl⟩, fun hc => absurd h hc⟩
  · rw [if_neg h]
    refine ⟨⟨fun he => ?_, fun hc => absurd hc h⟩, fun _ => rfl⟩
    have : (1 : Int) = 20 := congrArg JsDate.day he
    norm_num at this

/-- Witness for `inauguration_quadrennial`: 2025 follows an election year
and resolves to January 20, 2025; 2024 does not and yields the epoch
sentinel. -/
theorem inauguration_quadrennial_witness :
    inaugurationGetDate 2025 = ⟨2025, 1, 20⟩ ∧ inaugurationGetDate 2024 = epochDate :=
  ⟨(inauguration_quadrennial 2025).1.mpr (by decide),
    (inauguration_quadrennial 2024).2 (by decide)⟩

/-! ## Fixed solar rules -/

theorem fixed_direct_fields (y c d : Int) (hc0 : 0 ≤ c) (hc : c ≤ 11)
    (hd1 : 1 ≤ d) (hd2 : d ≤ monthLen y (c + 1)) :
    (mkJsDate y c d).month = c + 1 ∧ (mkJsDate y c d).day = d := by
  have h := mkJsDate_valid y (c + 1) d (by omega) (by omega) hd1 hd2
  rw [show c + 1 - 1 = c by ring] at h
  rw [h]
  exact ⟨rfl, rfl⟩

/-- C7 (amended): every built-in fixed solar rule — in both calendar
catalogs and in the countdown defaults — resolves, for every year in
[1900, 2100], to a date whose month and day equal the rule's stored month
and day; and a custom solar rule does so whenever its stored `(month,
day)` pair is a valid calendar combination in that year (`day ≤ monthLen`;
otherwise JavaScript `Date` rolls the day into the following month — see
the counterexample). -/
theorem fixed_solar_resolve :
    (∀ (o : LunarOracle) (h : Holiday),
      h ∈ US_HOLIDAYS ++ CHINESE_HOLIDAYS o ++ HOLIDAYS →
      h.isFixed = true → h.isLunar = false → ∀ y : Int, 1900 ≤ y → y ≤ 2100 →
      (h.getDate y).month = h.month ∧ (h.getDate y).day = h.day) ∧
    (∀ m d y : Int, 1 ≤ m → m ≤ 12 → 1 ≤ d → d ≤ monthLen y m →
      1900 ≤ y → y ≤ 2100 →
      (customSolarGetDate m d y).month = m ∧ (customSolarGetDate m d y).day = d) := by
  constructor
  · intro o h hmem hfix hlun y hy1 hy2
    simp only [US_HOLIDAYS, CHINESE_HOLIDAYS, HOLIDAYS, List.append_assoc,
      List.cons_append, List.nil_append] at hmem
    fin_cases hmem <;>
      first
        | (simp at hfix; done)
        | (simp at hlun; done)
        | exact fixed_direct_fields y _ _ (by norm_num) (by norm_num) (by norm_num)
            (by norm_num [monthLen])
  · intro m d y hm1 hm2 hd1 hd2 hy1 hy2
    unfold customSolarGetDate toPacificMidnight
    rw [mkJsDate_valid y m d hm1 hm2 hd1 hd2]
    exact ⟨rfl, rfl⟩

/-- Counterexample to C7 as stated: the custom fixed-solar rule with
stored month 2 and day 30 (an expressible rule: solar day fields range
over 1–31) resolves in 2024 to March 1, whose month is not the stored
month — JavaScript `Date` rolls February 30 over. -/
theorem fixed_solar_resolve_counterexample :
    customSolarGetDate 2 30 2024 = ⟨2024, 3, 1⟩ ∧
    (customSolarGetDate 2 30 2024).month ≠ 2 := by
  decide

/-- Witness for `fixed_solar_resolve`: the built-in New Year's Day rule at
2024 and a valid custom solar rule (July 4) at 2024. -/
theorem fixed_solar_resolve_witness :
    (((⟨"New Year\x27s Day", 1, 1, true, false, "",
        fun year => mkJsDate year 0 1⟩ : Holiday).getDate 2024).month = 1 ∧
      ((⟨"New Year\x27s Day", 1, 1, true, false, "",
        fun year => mkJsDate year 0 1⟩ : Holiday).getDate 2024).day = 1) ∧
    ((customSolarGetDate 7 4 2024).month = 7 ∧ (customSolarGetDate 7 4 2024).day = 4) :=
  ⟨fixed_solar_resolve.1 failingOracle _
      (List.mem_append_left _ (List.mem_append_left _ (List.Mem.head _)))
      rfl rfl 2024 (by norm_num) (by norm_num),
    fixed_solar_resolve.2 7 4 2024 (by norm_num) (by norm_num) (by norm_num)
      (by norm_num [monthLen]) (by norm_num) (by norm_num)⟩

/-! ## Characterization of the countdown scan -/

/-- Invariant of the `calculateNextHoliday` scan after a prefix of the
candidate sequence: `minDays` mirrors the day-difference of the current
best candidate; when none is selected every processed candidate had a
negative day-difference; and the selected candidate is the first one
attaining the non-negative minimum over the processed prefix. -/
def ScanInv (today : JsDate) (processed : List (Holiday × JsDate))
    (st : SearchState) : Prop :=
  st.minDays = st.nextHolidayInfo.map (fun c => jsDifferenceInDays c.2 today) ∧
  (st.nextHolidayInfo = none → ∀ c ∈ processed, jsDifferenceInDays c.2 today < 0) ∧
  (∀ c, st.nextHolidayInfo = some c →
    0 ≤ jsDifferenceInDays c.2 today ∧
    ∃ l1 l2, processed = l1 ++ c :: l2 ∧
      (∀ c' ∈ l1, 0 ≤ jsDifferenceInDays c'.2 today →
        jsDifferenceInDays c.2 today < jsDifferenceInDays c'.2 today) ∧
      (∀ c' ∈ l2, 0 ≤ jsDifferenceInDays c'.2 today →
        jsDifferenceInDays c.2 today ≤ jsDifferenceInDays c'.2 today))

theorem scanInv_init (today : JsDate) : ScanInv today [] ⟨none, none⟩ :=
  ⟨rfl, fun _ c hc => absurd hc (List.not_mem_nil c), fun c hc => by simp at hc⟩

theorem scanInv_step (today : JsDate) (processed : List (Holiday × JsDate))
    (st : SearchState) (c : Holiday × JsDate) (hinv : ScanInv today processed st) :
    ScanInv today (processed ++ [c]) (searchStep today st c) := by
  obtain ⟨hsync, hnone, hsome⟩ := hinv
  simp only [searchStep]
  by_cases hcond : 0 ≤ jsDifferenceInDays c.2 today ∧
      ltMinDays (jsDifferenceInDays c.2 today) st.minDays
  · rw [if_pos hcond]
    refine ⟨rfl, by simp, ?_⟩
    intro c0 hc0
    have hcc : c = c0 := by injection hc0
    subst hcc
    refine ⟨hcond.1, processed, [], by simp, ?_, by simp⟩
    intro c' hc' hge'
    cases hst : st.nextHolidayInfo with
    | none => exact absurd (hnone hst c' hc') (by omega)
    | some b =>
      obtain ⟨hb0, l1, l2, hsplit, hl1, hl2⟩ := hsome b hst
      rw [hst] at hsync
      have hlt : jsDifferenceInDays c.2 today < jsDifferenceInDays b.2 today := by
        have h2 := hcond.2
        rw [hsync] at h2
        exact h2
      rw [hsplit] at hc'
      rcases List.mem_append.mp hc' with h | h
      · exact lt_trans hlt (hl1 c' h hge')
      · rcases List.mem_cons.mp h with h | h
        · rw [h]; exact hlt
        · exact lt_of_lt_of_le hlt (hl2 c' h hge')
  · rw [if_neg hcond]
    refine ⟨hsync, ?_, ?_⟩
    · intro hst c' hc'
      rcases List.mem_append.mp hc' with h | h
      · exact hnone hst c' h
      · have hcc : c' = c := by simpa using h
        subst hcc
        rw [hst] at hsync
        simp only [Option.map] at hsync
        rw [hsync] at hcond
        simp only [ltMinDays, and_true] at hcond
        omega
    · intro c0 hc0
      obtain ⟨h0, l1, l2, hsplit, hl1, hl2⟩ := hsome c0 hc0
      refine ⟨h0, l1, l2 ++ [c], by rw [hsplit]; simp, hl1, ?_⟩
      intro c' hc' hge
      rcases List.mem_append.mp hc' with h | h
      · exact hl2 c' h hge
      · have hcc : c' = c := by simpa using h
        subst hcc
        rw [hc0] at hsync
        simp only [Option.map] at hsync
        rw [hsync] at hcond
        simp only [ltMinDays] at hcond
        omega

theorem scanInv_foldl (today : JsDate) :
    ∀ (l pre : List (Holiday × JsDate)) (st : SearchState),
      ScanInv today pre st → ScanInv today (pre ++ l) (l.foldl (searchStep today) st)
  | [], pre, st, h => by simpa using h
  | c :: l, pre, st, h => by
    have h2 := scanInv_foldl today l (pre ++ [c]) _ (scanInv_step today pre st c h)
    simpa using h2

theorem calculateNextHoliday_eq_scan (defaults customs : List Holiday)
    (disabled : List String) (today : JsDate) :
    calculateNextHoliday defaults customs disabled today =
      ((candidateList defaults customs disabled today).foldl (searchStep today)
        ⟨none, none⟩).nextHolidayInfo := by
  simp only [calculateNextHoliday, candidateList, List.foldl_append, List.foldl_map]

/-- C1 (amended): `calculateNextHoliday` resolves each enabled rule for
the instant's year and for year+1 (the candidate sequence
`candidateList`) and returns the candidate with the smallest non-negative
day-difference from the instant; it never returns a candidate with
negative day-difference, a zero-day difference is a valid minimal result,
and when two candidates tie, the candidate encountered first in the scan
order — enabled defaults at the instant's year, enabled defaults at
year+1, customs at the instant's year, customs at year+1, each pass in
list order — wins.  (Within one pass this is catalog order; across passes
it need not be, see the counterexample.) -/
theorem next_holiday_scan_spec (defaults customs : List Holiday)
    (disabled : List String) (today : JsDate) :
    (calculateNextHoliday defaults customs disabled today = none ↔
      ∀ c ∈ candidateList defaults customs disabled today,
        jsDifferenceInDays c.2 today < 0) ∧
    (∀ c, calculateNextHoliday defaults customs disabled today = some c →
      0 ≤ jsDifferenceInDays c.2 today ∧
      (∀ c' ∈ candidateList defaults customs disabled today,
        0 ≤ jsDifferenceInDays c'.2 today →
        jsDifferenceInDays c.2 today ≤ jsDifferenceInDays c'.2 today) ∧
      ∃ l1 l2, candidateList defaults customs disabled today = l1 ++ c :: l2 ∧
        ∀ c' ∈ l1, 0 ≤ jsDifferenceInDays c'.2 today →
          jsDifferenceInDays c.2 today < jsDifferenceInDays c'.2 today) := by
  have hinv := scanInv_foldl today (candidateList defaults customs disabled today)
    [] ⟨none, none⟩ (scanInv_init today)
  rw [List.nil_append] at hinv
  obtain ⟨hsync, hnone, hsome⟩ := hinv
  rw [calculateNextHoliday_eq_scan]
  constructor
  · constructor
    · exact hnone
    · intro hall
      cases hst : ((candidateList defaults customs disabled today).foldl
          (searchStep today) ⟨none, none⟩).nextHolidayInfo with
      | none => rfl
      | some c =>
        obtain ⟨h0, l1, l2, hsplit, _, _⟩ := hsome c hst
        have hmem : c ∈ candidateList defaults customs disabled today := by
          rw [hsplit]; exact List.mem_append_right _ (List.mem_cons_self _ _)
        exact absurd h0 (by have := hall c hmem; omega)
  · intro c hc
    obtain ⟨h0, l1, l2, hsplit, hl1, hl2⟩ := hsome c hc
    refine ⟨h0, ?_, l1, l2, hsplit, hl1⟩
    intro c' hc' hge
    rw [hsplit] at hc'
    rcases List.mem_append.mp hc' with h | h
    · exact le_of_lt (hl1 c' h hge)
    · rcases List.mem_cons.mp h with h | h
      · rw [h]
      · exact hl2 c' h hge

/-- Witness for `next_holiday_scan_spec`: a one-rule catalog two days
before its next occurrence. -/
theorem next_holiday_scan_spec_witness :
    calculateNextHoliday [janFirstRule] [] [] ⟨2024, 12, 30⟩
        = some (janFirstRule, ⟨2025, 1, 1⟩) ∧
    0 ≤ jsDifferenceInDays (janFirstRule, (⟨2025, 1, 1⟩ : JsDate)).2 ⟨2024, 12, 30⟩ :=
  ⟨rfl, ((next_holiday_scan_spec [janFirstRule] [] [] ⟨2024, 12, 30⟩).2 _ rfl).1⟩

/-- Counterexample to C1's tie-break clause as stated: on 2024-12-30, with
custom rules `[janFirstRule, crossYearRule]`, both rules produce a
candidate at day-difference 2 (January 1, 2025): `janFirstRule` from its
year+1 resolution and `crossYearRule` from its current-year resolution.
`janFirstRule` is encountered first in catalog iteration order, yet the
scan returns `crossYearRule`, because the current-year pass runs before
the next-year pass. -/
theorem next_holiday_tiebreak_counterexample :
    (calculateNextHoliday [] [janFirstRule, crossYearRule] [] ⟨2024, 12, 30⟩).map
        (fun c => c.1.name) = some "CrossYear" ∧
    jsDifferenceInDays (janFirstRule.getDate 2025) ⟨2024, 12, 30⟩ = 2 ∧
    jsDifferenceInDays (crossYearRule.getDate 2024) ⟨2024, 12, 30⟩ = 2 ∧
    janFirstRule.name ≠ "CrossYear" := by
  decide

/-! ## Characterization of the calendar dedup merge -/

/-- `matchesOn` as a Boolean predicate (for `List.filter`). -/
def matchesOnB (date : JsDate) (h : Holiday) : Bool := decide (matchesOn h date)

theorem collectMatching_mem_iff (date : JsDate) :
    ∀ (l : List Holiday) (seen : List String) (h' : Holiday),
      h' ∈ collectMatching date l seen ↔
        h'.name ∉ seen ∧
        ∃ l1 l2, l.filter (matchesOnB date) = l1 ++ h' :: l2 ∧
          h'.name ∉ l1.map Holiday.name
  | [], seen, h' => by
    simp only [collectMatching, List.filter_nil, List.not_mem_nil, false_iff,
      not_and]
    intro _ ⟨l1, l2, hsplit, _⟩
    exact absurd hsplit.symm (List.append_ne_nil_of_right_ne_nil l1 (by simp))
  | h :: rest, seen, h' => by
    by_cases hm : matchesOn h date
    · rw [List.filter_cons_of_pos (by simpa [matchesOnB] using hm)]
      by_cases hseen : h.name ∈ seen
      · rw [show collectMatching date (h :: rest) seen
              = collectMatching date rest seen by
            simp only [collectMatching, if_pos hm]
            rw [if_pos (by simpa using hseen)]]
        rw [collectMatching_mem_iff date rest seen h']
        constructor
        · rintro ⟨hns, l1, l2, hsplit, hpre⟩
          refine ⟨hns, h :: l1, l2, by rw [hsplit]; rfl, ?_⟩
          simp only [List.map_cons, List.mem_cons, not_or]
          exact ⟨fun he => hns (he ▸ hseen), hpre⟩
        · rintro ⟨hns, l1, l2, hsplit, hpre⟩
          cases l1 with
          | nil =>
            simp only [List.nil_append, List.cons.injEq] at hsplit
            exact absurd (hsplit.1 ▸ hseen) hns
          | cons a l1' =>
            simp only [List.cons_append, List.cons.injEq] at hsplit
            refine ⟨hns, l1', l2, hsplit.2, ?_⟩
            simp only [List.map_cons, List.mem_cons, not_or] at hpre
            exact hpre.2
      · rw [show collectMatching date (h :: rest) seen
              = h :: collectMatching date rest (h.name :: seen) by
            simp only [collectMatching, if_pos hm]
            rw [if_neg (by simpa using hseen)]]
        constructor
        · intro hmem
          rcases List.mem_cons.mp hmem with he | hmem'
          · subst he
            exact ⟨hseen, [], rest.filter (matchesOnB date), rfl, by simp⟩
          · obtain ⟨hns', l1, l2, hsplit, hpre⟩ :=
              (collectMatching_mem_iff date rest (h.name :: seen) h').mp hmem'
            simp only [List.mem_cons, not_or] at hns'
            refine ⟨hns'.2, h :: l1, l2, by rw [hsplit]; rfl, ?_⟩
            simp only [List.map_cons, List.mem_cons, not_or]
            exact ⟨hns'.1, hpre⟩
        · rintro ⟨hns, l1, l2, hsplit, hpre⟩
          cases l1 with
          | nil =>
            simp only [List.nil_append, List.cons.injEq] at hsplit
            exact List.mem_cons.mpr (Or.inl hsplit.1.symm)
          | cons a l1' =>
            simp only [List.cons_append, List.cons.injEq] at hsplit
            simp only [List.map_cons, List.mem_cons, not_or] at hpre
            refine List.mem_cons.mpr (Or.inr ?_)
            exact (collectMatching_mem_iff date rest (h.name :: seen) h').mpr
              ⟨by simp only [List.mem_cons, not_or]; exact ⟨hsplit.1 ▸ hpre.1, hns⟩,
                l1', l2, hsplit.2, hpre.2⟩
    · rw [List.filter_cons_of_neg (by simpa [matchesOnB] using hm)]
      rw [show collectMatching date (h :: rest) seen
            = collectMatching date rest seen by
          simp only [collectMatching, if_neg hm]]
      exact collectMatching_mem_iff date rest seen h'

theorem collectMatching_names_nodup (date : JsDate) :
    ∀ (l : List Holiday) (seen : List String),
      ((collectMatching date l seen).map Holiday.name).Nodup ∧
      ∀ h' ∈ collectMatching date l seen, h'.name ∉ seen
  | [], seen => by simp [collectMatching]
  | h :: rest, seen => by
    by_cases hm : matchesOn h date
    · by_cases hseen : h.name ∈ seen
      · rw [show collectMatching date (h :: rest) seen
              = collectMatching date rest seen by
            simp only [collectMatching, if_pos hm]
            rw [if_pos (by simpa using hseen)]]
        exact collectMatching_names_nodup date rest seen
      · rw [show collectMatching date (h :: rest) seen
              = h :: collectMatching date rest (h.name :: seen) by
            simp only [collectMatching, if_pos hm]
            rw [if_neg (by simpa using hseen)]]
        obtain ⟨hnd, hsn⟩ := collectMatching_names_nodup date rest (h.name :: seen)
        constructor
        · simp only [List.map_cons, List.nodup_cons]
          refine ⟨fun hc => ?_, hnd⟩
          obtain ⟨h'', hmem'', hname''⟩ := List.mem_map.mp hc
          exact (hsn h'' hmem'') (by rw [hname'']; exact List.mem_cons_self _ _)
        · intro h' hmem'
          rcases List.mem_cons.mp hmem' with he | hmem''
          · subst he; exact hseen
          · have := hsn h' hmem''
            simp only [List.mem_cons, not_or] at this
            exact this.2
    · rw [show collectMatching date (h :: rest) seen
            = collectMatching date rest seen by
          simp only [collectMatching, if_neg hm]]
      exact collectMatching_names_nodup date rest seen

theorem collectMatching_complete (date : JsDate) :
    ∀ (l : List Holiday) (seen : List String) (n : String), n ∉ seen →
      (∃ h ∈ l, matchesOn h date ∧ h.name = n) →
      ∃ h' ∈ collectMatching date l seen, h'.name = n
  | [], seen, n, hns, hex => by simp at hex
  | h :: rest, seen, n, hns, hex => by
    obtain ⟨w, hwmem, hwmatch, hwname⟩ := hex
    by_cases hm : matchesOn h date
    · by_cases hseen : h.name ∈ seen
      · rw [show collectMatching date (h :: rest) seen
              = collectMatching date rest seen by
            simp only [collectMatching, if_pos hm]
            rw [if_pos (by simpa using hseen)]]
        have hwrest : w ∈ rest := by
          rcases List.mem_cons.mp hwmem with he | hmem'
          · exact absurd (hwname ▸ he ▸ hseen) hns
          · exact hmem'
        exact collectMatching_complete date rest seen n hns ⟨w, hwrest, hwmatch, hwname⟩
      · rw [show collectMatching date (h :: rest) seen
              = h :: collectMatching date rest (h.name :: seen) by
            simp only [collectMatching, if_pos hm]
            rw [if_neg (by simpa using hseen)]]
        by_cases hhn : h.name = n
        · exact ⟨h, List.mem_cons_self _ _, hhn⟩
        · have hwrest : w ∈ rest := by
            rcases List.mem_cons.mp hwmem with he | hmem'
            · exact absurd (he ▸ hwname) hhn
            · exact hmem'
          obtain ⟨h', hmem', hname'⟩ := collectMatching_complete date rest
            (h.name :: seen) n
            (by simp only [List.mem_cons, not_or]; exact ⟨fun he => hhn he.symm, hns⟩)
            ⟨w, hwrest, hwmatch, hwname⟩
          exact ⟨h', List.mem_cons_of_mem _ hmem', hname'⟩
    · rw [show collectMatching date (h :: rest) seen
            = collectMatching date rest seen by
          simp only [collectMatching, if_neg hm]]
      have hwrest : w ∈ rest := by
        rcases List.mem_cons.mp hwmem with he | hmem'
        · exact absurd (he ▸ hwmatch) hm
        · exact hmem'
      exact collectMatching_complete date rest seen n hns ⟨w, hwrest, hwmatch, hwname⟩

/-- C9 (amended): the calendar merge combines, in insertion order, the
`US` built-in set, the `Chinese` built-in set and the `holidays` prop
(which `HolidayCountdown` fills with the unfiltered countdown defaults
followed by the custom rules — the disabled set is not consulted, see the
counterexample); among the rules matching the day it deduplicates by
name, first occurrence winning, so each name appears at most once and a
later matching rule sharing a name with an earlier matching one is
hidden. -/
theorem merged_display_dedup (o : LunarOracle) (prop : List Holiday) (date : JsDate) :
    ((getHolidaysForDate o prop date).map Holiday.name).Nodup ∧
    ∀ h', h' ∈ getHolidaysForDate o prop date ↔
      ∃ l1 l2, (mergedCatalog o prop).filter (matchesOnB date) = l1 ++ h' :: l2 ∧
        h'.name ∉ l1.map Holiday.name := by
  constructor
  · exact (collectMatching_names_nodup date (mergedCatalog o prop) []).1
  · intro h'
    rw [show getHolidaysForDate o prop date
          = collectMatching date (mergedCatalog o prop) [] from rfl]
    rw [collectMatching_mem_iff date (mergedCatalog o prop) [] h']
    simp only [List.not_mem_nil, not_false_iff, true_and]

/-- Counterexample to C9's "filtered by the disabled set" clause: with
"Independence Day" in the disabled set, the merged calendar display for
July 4, 2024 still lists "Independence Day" — neither the widget's own
built-in catalogs nor the `holidays` prop are filtered by the disabled
names. -/
theorem merged_display_disabled_counterexample :
    "Independence Day" ∈ (["Independence Day"] : List String) ∧
    "Independence Day" ∈
      (getHolidaysForDate failingOracle (calendarHolidaysProp []) ⟨2024, 7, 4⟩).map
        Holiday.name := by
  decide

/-- C2 (amended): a built-in rule disabled via the settings toggle is
excluded from the countdown search (`calculateNextHoliday` only ever
returns a custom rule or an enabled default) until re-enabled; but the
calendar's `getHolidaysForDate` is not filtered by the disabled set — the
`holidays` prop is the unfiltered default list plus the customs and the
widget's own built-in catalogs are always consulted, so any merged rule
matching the day keeps its name in the rendered list regardless of the
disabled set. -/
theorem disabled_excluded_from_countdown_only :
    (∀ (defaults customs : List Holiday) (disabled : List String) (today : JsDate)
      (c : Holiday × JsDate),
      calculateNextHoliday defaults customs disabled today = some c →
      c.1 ∈ customs ∨ (c.1 ∈ defaults ∧ c.1.name ∉ disabled)) ∧
    (∀ (o : LunarOracle) (customs : List Holiday) (date : JsDate) (n : String),
      (∃ h ∈ mergedCatalog o (calendarHolidaysProp customs),
        matchesOn h date ∧ h.name = n) →
      ∃ h' ∈ getHolidaysForDate o (calendarHolidaysProp customs) date,
        h'.name = n) := by
  constructor
  · intro defaults customs disabled today c hres
    obtain ⟨_, _, l1, l2, hsplit, _⟩ :=
      ((next_holiday_scan_spec defaults customs disabled today).2 c hres)
    have hmem : c ∈ candidateList defaults customs disabled today := by
      rw [hsplit]; exact List.mem_append_right _ (List.mem_cons_self _ _)
    simp only [candidateList, List.mem_append, List.mem_map, List.mem_filter] at hmem
    rcases hmem with ((⟨h, ⟨hd, hnd⟩, he⟩ | ⟨h, ⟨hd, hnd⟩, he⟩) | ⟨h, hc, he⟩) | ⟨h, hc, he⟩
    · refine Or.inr ⟨?_, ?_⟩
      · rw [← he]; exact hd
      · rw [← he]
        simpa using hnd
    · refine Or.inr ⟨?_, ?_⟩
      · rw [← he]; exact hd
      · rw [← he]
        simpa using hnd
    · exact Or.inl (by rw [← he]; exact hc)
    · exact Or.inl (by rw [← he]; exact hc)
  · intro o customs date n hex
    exact collectMatching_complete date (mergedCatalog o (calendarHolidaysProp customs))
      [] n (List.not_mem_nil n) hex

/-- Counterexample to C2 as stated: with "Christmas Day" in the disabled
set, `calculateNextHoliday` excludes it, but the calendar rendering path
still matches it: the `holidays` prop `[...HOLIDAYS, ...customHolidays]`
is not filtered, and "Christmas Day" appears for December 25, 2024. -/
theorem disabled_still_in_calendar_counterexample :
    "Christmas Day" ∈ (["Christmas Day"] : List String) ∧
    "Christmas Day" ∈
      (getHolidaysForDate failingOracle (calendarHolidaysProp []) ⟨2024, 12, 25⟩).map
        Holiday.name := by
  decide

/-- Witness for `disabled_excluded_from_countdown_only`: with "Christmas
Day" disabled on 2024-12-20, the countdown returns New Year's Day (an
enabled default); and a matching merged rule's name ("Christmas Day" on
December 25, 2024) appears in the calendar list. -/
theorem disabled_excluded_witness :
    (∃ c, calculateNextHoliday HOLIDAYS [] ["Christmas Day"] ⟨2024, 12, 20⟩ = some c ∧
      (c.1 ∈ ([] : List Holiday) ∨
        (c.1 ∈ HOLIDAYS ∧ c.1.name ∉ (["Christmas Day"] : List String)))) ∧
    ∃ h' ∈ getHolidaysForDate failingOracle (calendarHolidaysProp []) ⟨2024, 12, 25⟩,
      h'.name = "Christmas Day" := by
  constructor
  · exact ⟨_, rfl, disabled_excluded_from_countdown_only.1 HOLIDAYS [] ["Christmas Day"]
      ⟨2024, 12, 20⟩ _ rfl⟩
  · refine disabled_excluded_from_countdown_only.2 failingOracle [] ⟨2024, 12, 25⟩
      "Christmas Day" ⟨⟨"Christmas Day", 12, 25, true, false, "US",
        fun year => mkJsDate year 11 25⟩, ?_, by decide, rfl⟩
    refine List.mem_append_left _ (List.mem_append_left _ ?_)
    refine List.mem_map.mpr ⟨⟨"Christmas Day", 12, 25, true, false, "",
      fun year => mkJsDate year 11 25⟩, ?_, rfl⟩
    repeat constructor

/-! ## The lunar validity probe and the conversion-failure sentinel -/

theorem isValidLunarDate_iff (o : LunarOracle) (y m d : Int) :
    isValidLunarDate o y m d = true ↔
      ∃ s, o y m d = some s ∧ 0 < s.year ∧ s.year < 9999 := by
  unfold isValidLunarDate
  cases h : o y m d with
  | none => simp [h]
  | some s => simp [h]

theorem getNextValid_first (o : LunarOracle) (y m d : Int)
    (h : isValidLunarDate o y m d = true) :
    getNextValidLunarDate o y m d = ⟨y, m, d⟩ := by
  simp [getNextValidLunarDate, h]

theorem getNextValid_prev (o : LunarOracle) (y m d : Int)
    (h : isValidLunarDate o y m d = false)
    (h' : isValidLunarDate o y m (d - 1) = true) :
    getNextValidLunarDate o y m d = ⟨y, m, d - 1⟩ := by
  simp [getNextValidLunarDate, h, h']

theorem getNextValid_next (o : LunarOracle) (y m d : Int)
    (h : isValidLunarDate o y m d = false)
    (h' : isValidLunarDate o y m (d - 1) = false)
    (h'' : isValidLunarDate o y m (d + 1) = true) :
    getNextValidLunarDate o y m d = ⟨y, m, d + 1⟩ := by
  simp [getNextValidLunarDate, h, h', h'']

theorem getNextValid_fallback (o : LunarOracle) (y m d : Int)
    (h : isValidLunarDate o y m d = false)
    (h' : isValidLunarDate o y m (d - 1) = false)
    (h'' : isValidLunarDate o y m (d + 1) = false) :
    getNextValidLunarDate o y m d = ⟨y, m, d⟩ := by
  simp [getNextValidLunarDate, h, h', h'']

theorem addedLunar_resolves_at (o : LunarOracle) (m d year : Int) (t : LunarTriple)
    (hprobe : getNextValidLunarDate o year m d = t) (s : JsDate)
    (hs : o t.year t.month t.day = some s) :
    addedLunarGetDate o m d year = toPacificMidnight (mkJsDate s.year (s.month - 1) s.day) := by
  simp only [addedLunarGetDate, hprobe, hs]

/-- C6: `isValidLunarDate` accepts a lunar triple exactly when conversion
succeeds with solar year strictly between 0 and 9999;
`getNextValidLunarDate` tries `day`, `day - 1`, `day + 1` in that order,
returning the first that validates, or the original triple when none
does; hence a custom lunar rule for lunar month 5 day 30, in a lunar year
whose month 5 has only 29 days, resolves via day 29 (or, when day 29 is
also invalid, via day 31) and never raises. -/
theorem lunar_validity_probe :
    (∀ (o : LunarOracle) (y m d : Int),
      isValidLunarDate o y m d = true ↔
        ∃ s, o y m d = some s ∧ 0 < s.year ∧ s.year < 9999) ∧
    (∀ (o : LunarOracle) (y m d : Int),
      (isValidLunarDate o y m d = true → getNextValidLunarDate o y m d = ⟨y, m, d⟩) ∧
      (isValidLunarDate o y m d = false → isValidLunarDate o y m (d - 1) = true →
        getNextValidLunarDate o y m d = ⟨y, m, d - 1⟩) ∧
      (isValidLunarDate o y m d = false → isValidLunarDate o y m (d - 1) = false →
        isValidLunarDate o y m (d + 1) = true →
        getNextValidLunarDate o y m d = ⟨y, m, d + 1⟩) ∧
      (isValidLunarDate o y m d = false → isValidLunarDate o y m (d - 1) = false →
        isValidLunarDate o y m (d + 1) = false →
        getNextValidLunarDate o y m d = ⟨y, m, d⟩)) ∧
    (∀ (o : LunarOracle) (y : Int),
      isValidLunarDate o y 5 30 = false → isValidLunarDate o y 5 29 = true →
      getNextValidLunarDate o y 5 30 = ⟨y, 5, 29⟩ ∧
      ∃ s, o y 5 29 = some s ∧
        addedLunarGetDate o 5 30 y =
          toPacificMidnight (mkJsDate s.year (s.month - 1) s.day)) ∧
    (∀ (o : LunarOracle) (y : Int),
      isValidLunarDate o y 5 30 = false → isValidLunarDate o y 5 29 = false →
      isValidLunarDate o y 5 31 = true →
      getNextValidLunarDate o y 5 30 = ⟨y, 5, 31⟩ ∧
      ∃ s, o y 5 31 = some s ∧
        addedLunarGetDate o 5 30 y =
          toPacificMidnight (mkJsDate s.year (s.month - 1) s.day)) := by
  refine ⟨isValidLunarDate_iff, ?_, ?_, ?_⟩
  · intro o y m d
    exact ⟨getNextValid_first o y m d, getNextValid_prev o y m d,
      getNextValid_next o y m d, getNextValid_fallback o y m d⟩
  · intro o y h30 h29
    have hprobe : getNextValidLunarDate o y 5 30 = ⟨y, 5, 29⟩ := by
      have := getNextValid_prev o y 5 30 h30 (by norm_num; exact h29)
      norm_num at this
      exact this
    obtain ⟨s, hs, _, _⟩ := (isValidLunarDate_iff o y 5 29).mp h29
    exact ⟨hprobe, s, hs, addedLunar_resolves_at o 5 30 y ⟨y, 5, 29⟩ hprobe s hs⟩
  · intro o y h30 h29 h31
    have hprobe : getNextValidLunarDate o y 5 30 = ⟨y, 5, 31⟩ := by
      have := getNextValid_next o y 5 30 h30 (by norm_num; exact h29)
        (by norm_num; exact h31)
      norm_num at this
      exact this
    obtain ⟨s, hs, _, _⟩ := (isValidLunarDate_iff o y 5 31).mp h31
    exact ⟨hprobe, s, hs, addedLunar_resolves_at o 5 30 y ⟨y, 5, 31⟩ hprobe s hs⟩

/-- Witness for `lunar_validity_probe`: under `sampleOracle` (lunar month
5 of 2025 has 29 days), the probe for lunar 2025-05-30 lands on day 29
and the custom lunar closure resolves to the converted solar date. -/
theorem lunar_validity_probe_witness :
    getNextValidLunarDate sampleOracle 2025 5 30 = ⟨2025, 5, 29⟩ ∧
    ∃ s, sampleOracle 2025 5 29 = some s ∧
      addedLunarGetDate sampleOracle 5 30 2025 =
        toPacificMidnight (mkJsDate s.year (s.month - 1) s.day) :=
  lunar_validity_probe.2.2.1 sampleOracle 2025 (by decide) (by decide)

/-- C4: every lunar `getDate` (the built-in calendar closures, the custom
closure built by `handleAddNewHoliday`, and the storage-reconstructed
closure) is total and maps a thrown lunar→solar conversion to the
far-future sentinel `new Date(9999, 0, 1)`, so no error propagates and
the rule is pushed out of near-term searches. -/
theorem lunar_failure_sentinel :
    (∀ (o : LunarOracle) (m d year : Int), o year m d = none →
      builtinLunarGetDate o m d year = sentinel9999) ∧
    (∀ (o : LunarOracle) (m d year : Int), o year m d = none →
      restoredLunarGetDate o m d year = sentinel9999) ∧
    (∀ (o : LunarOracle) (m d year : Int),
      o (getNextValidLunarDate o year m d).year (getNextValidLunarDate o year m d).month
        (getNextValidLunarDate o year m d).day = none →
      addedLunarGetDate o m d year = sentinel9999) ∧
    sentinel9999.year = 9999 := by
  refine ⟨?_, ?_, ?_, rfl⟩
  · intro o m d year h
    simp [builtinLunarGetDate, h]
  · intro o m d year h
    simp [restoredLunarGetDate, h]
  · intro o m d year h
    simp [addedLunarGetDate, h]

/-- Witness for `lunar_failure_sentinel`, on the always-failing
conversion instance. -/
theorem lunar_failure_sentinel_witness :
    builtinLunarGetDate failingOracle 5 5 2025 = sentinel9999 ∧
    restoredLunarGetDate failingOracle 5 30 2025 = sentinel9999 ∧
    addedLunarGetDate failingOracle 5 30 2025 = sentinel9999 :=
  ⟨lunar_failure_sentinel.1 failingOracle 5 5 2025 rfl,
    lunar_failure_sentinel.2.1 failingOracle 5 30 2025 rfl,
    lunar_failure_sentinel.2.2.1 failingOracle 5 30 2025 rfl⟩

/-! ## The serialize / reconstruct round trip for custom rules -/

/-- C3 (amended): dropping the `getDate` closure on save and rebuilding it
from the stored `(month, day, isLunar)` triple reproduces the original
rule's resolution for every solar rule and, for a lunar rule, for every
year in which the stored triple itself converts to a solar year strictly
between 0 and 9999 (then the original closure's ±1-day probe is a no-op).
When the stored lunar triple does not convert for a year but a
neighbouring day does, the two closures differ: the original probes to
the neighbour, the reconstruction returns the year-9999 sentinel (see the
counterexample). -/
theorem custom_rule_roundtrip :
    (∀ (o : LunarOracle) (m d year : Int),
      restoredCustomGetDate o false m d year = addedCustomGetDate o false m d year) ∧
    (∀ (o : LunarOracle) (m d year : Int) (s : JsDate),
      o year m d = some s → 0 < s.year → s.year < 9999 →
      restoredCustomGetDate o true m d year = addedCustomGetDate o true m d year) := by
  constructor
  · intro o m d year
    rfl
  · intro o m d year s hs h1 h2
    have hvalid : isValidLunarDate o year m d = true :=
      (isValidLunarDate_iff o year m d).mpr ⟨s, hs, h1, h2⟩
    simp only [restoredCustomGetDate, addedCustomGetDate, if_true]
    simp only [restoredLunarGetDate, addedLunarGetDate,
      getNextValid_first o year m d hvalid]

/-- Counterexample to C3 as stated: under `sampleOracle` (lunar month 5 of
2025 is short), the original custom lunar rule for (month 5, day 30)
probes to day 29 and resolves to June 24, 2025, while the
storage-reconstructed rule — which lacks the probe — hits the conversion
failure and returns the year-9999 sentinel. -/
theorem custom_rule_roundtrip_counterexample :
    addedCustomGetDate sampleOracle true 5 30 2025 = ⟨2025, 6, 24⟩ ∧
    restoredCustomGetDate sampleOracle true 5 30 2025 = sentinel9999 ∧
    addedCustomGetDate sampleOracle true 5 30 2025 ≠
      restoredCustomGetDate sampleOracle true 5 30 2025 := by
  decide

/-- Witness for `custom_rule_roundtrip`: a solar example (July 4) and a
lunar example (lunar 2025-01-01, converting to January 29, 2025). -/
theorem custom_rule_roundtrip_witness :
    restoredCustomGetDate sampleOracle false 7 4 2030
        = addedCustomGetDate sampleOracle false 7 4 2030 ∧
    restoredCustomGetDate sampleOracle true 1 1 2025
        = addedCustomGetDate sampleOracle true 1 1 2025 :=
  ⟨custom_rule_roundtrip.1 sampleOracle 7 4 2030,
    custom_rule_roundtrip.2 sampleOracle 1 1 2025 ⟨2025, 1, 29⟩ (by decide)
      (by decide) (by decide)⟩

/-! ## The special-date window -/

theorem foldl_append_pushes (today : JsDate) :
    ∀ (dates : List SpecialDate) (acc : List Upcoming),
      dates.foldl (fun a sd => a ++ specialDatePushes today sd) acc
        = acc ++ (dates.map (specialDatePushes today)).flatten
  | [], acc => by simp
  | sd :: rest, acc => by
    rw [List.foldl_cons, foldl_append_pushes today rest (acc ++ specialDatePushes today sd)]
    simp

/-- The two sequential `if` blocks of the loop body produce exactly the
single windowed entry described by the spec (`specUpcoming`): their
conditions are mutually exclusive, so at most one entry is pushed. -/
theorem pushes_eq_spec (today : JsDate) (sd : SpecialDate) :
    specialDatePushes today sd = (specUpcoming today sd).toList := by
  simp only [specialDatePushes, specUpcoming, jsDifferenceInDays, Option.toList]
  split_ifs <;> first | rfl | (exfalso; omega)

/-- C10: `calculateNextSpecialDate` returns entries sorted ascending by
`days`, and an entry is returned exactly when some stored special date
produces it under the windowed rule `specEntry`: this year's occurrence
counts when it is today-or-future and within the 7-day window, otherwise
next year's occurrence counts when it is within the window; a special
date with no occurrence inside the window contributes no entry. -/
theorem special_dates_window (specialDates : List SpecialDate) (today : JsDate) :
    List.Pairwise (fun a b : UpEntry => a.days ≤ b.days)
      (calculateNextSpecialDate specialDates today) ∧
    ∀ e : UpEntry, e ∈ calculateNextSpecialDate specialDates today ↔
      ∃ sd ∈ specialDates, specEntry today sd = some e := by
  have hup : specialDates.foldl (fun a sd => a ++ specialDatePushes today sd) []
      = ((specialDates.map (specialDatePushes today)).flatten) := by
    rw [foldl_append_pushes today specialDates []]
    simp
  constructor
  · apply List.Pairwise.map (fun u : Upcoming => (⟨u.name, u.days, u.type⟩ : UpEntry))
      (S := fun a b : UpEntry => a.days ≤ b.days)
      (R := fun a b : Upcoming => (fun x y : Upcoming => decide (x.days ≤ y.days)) a b)
    · intro a b hab
      simpa using hab
    · exact List.sorted_mergeSort
        (fun a b c hab hbc => by simp at hab hbc ⊢; omega)
        (fun a b => by simp; omega) _
  · intro e
    simp only [calculateNextSpecialDate]
    rw [List.mem_map]
    constructor
    · rintro ⟨u, hu, he⟩
      have humem : u ∈ specialDates.foldl
          (fun a sd => a ++ specialDatePushes today sd) [] :=
        (List.mergeSort_perm _ _).mem_iff.mp hu
      rw [hup] at humem
      obtain ⟨l, hl, hul⟩ := List.mem_flatten.mp humem
      obtain ⟨sd, hsd, hlsd⟩ := List.mem_map.mp hl
      refine ⟨sd, hsd, ?_⟩
      rw [← hlsd, pushes_eq_spec today sd] at hul
      simp only [specEntry]
      cases hspec : specUpcoming today sd with
      | none => rw [hspec] at hul; simp at hul
      | some u' =>
        rw [hspec] at hul
        simp only [Option.toList] at hul
        have huu : u = u' := by simpa using hul
        rw [← huu]
        exact congrArg some he
    · rintro ⟨sd, hsd, hse⟩
      simp only [specEntry] at hse
      cases hspec : specUpcoming today sd with
      | none => rw [hspec] at hse; simp at hse
      | some u =>
        rw [hspec] at hse
        have hse' : (fun u : Upcoming => (⟨u.name, u.days, u.type⟩ : UpEntry)) u = e := by
          injection hse
        refine ⟨u, ?_, hse'⟩
        apply (List.mergeSort_perm _ _).mem_iff.mpr
        rw [hup]
        apply List.mem_flatten.mpr
        refine ⟨specialDatePushes today sd, List.mem_map_of_mem _ hsd, ?_⟩
        rw [pushes_eq_spec today sd, hspec]
        exact List.Mem.head _

end Timer
